import Mathlib

/-!
Shallow embedding of the CameraManager orchestrator of `src/unnamed/part_001`
(frigate-hass-card, `src/camera-manager/manager.ts`).

Conventions of the embedding:
* Times (Date values) are naturals; machine integers do not overflow here.
* JavaScript object identity matters for Map keying, so queries and media
  carry an identity tag (`OId` / `ViewMedia.oid`); a spread `{ ...query }`
  in the source creates a fresh object and is modelled by wrapping the tag
  in a dedicated constructor.
* Engines, the Store and `ViewMedia` accessors are collaborators whose code
  is not part of the analysed sources; engines are function-field records
  (arbitrary behavior), the Store and `ViewMedia` are modelled from the
  specification (see the doc comments below).
* Concurrent fan-out (`Promise.all`) is modelled as a left fold: the merge
  accumulator receives the same set of entries in one linearization.
-/

/-- Object-identity tag for query objects. Each JavaScript object spread in
the source creates a fresh object; the wrapping constructors keep the clones
distinct from every original and from each other. -/
inductive OId where
  | orig (n : Nat)
  | engineClone (base : OId) (eid : Nat)
  | freshnessClone (base : OId) (eid : Nat)
  | chunkClone (base : OId)
  | extendedClone (base : OId)
deriving DecidableEq

/-- Type discriminant `QueryType` of `src/unnamed/part_001` (Event / Recording /
RecordingSegments); `QueryResultsType` mirrors it. -/
inductive QueryType where
  | event
  | recording
  | recordingSegments
deriving DecidableEq

/-- Modelled from the spec: `ViewMedia` (not under src/) is a
"backend-agnostic media descriptor; optional identity (absent identity =>
item treated as unique), start time, end time", resolved to a camera via
its camera reference. `oid` is the JavaScript object identity, `mediaId`
is `getID()`, `startTime` is `getStartTime()`, `endTime` is `getEndTime()`,
`cameraID` is the media's camera reference. -/
structure ViewMedia where
  oid : Nat
  mediaId : Option String
  startTime : Option Nat
  endTime : Option Nat
  cameraID : String
deriving DecidableEq

/-- A `DataQuery` of `src/unnamed/part_001`: type discriminant, target
camera IDs, optional time bounds and limit (`end` is a reserved word in
Lean, hence `endBound`); `oid` is the object identity of the query object. -/
structure DataQuery where
  oid : OId
  qtype : QueryType
  cameraIDs : List String
  start : Option Nat
  endBound : Option Nat
  limit : Option Nat
deriving DecidableEq

/-- Results record `QueryResults` of `src/unnamed/part_001`: result-type tag, producing
engine type, `cached` flag; `payload` stands for the backend-specific
payload, opaque to the orchestrator (only custom engine functions read it). -/
structure QueryResults where
  rtype : QueryType
  engineType : Nat
  cached : Bool
  payload : List ViewMedia
deriving DecidableEq

/-- Capability flags `CameraManagerCapabilities` of `src/unnamed/part_001` (the six flags
aggregated by `getAggregateCameraCapabilities`). -/
structure CameraManagerCapabilities where
  canFavoriteEvents : Bool
  canFavoriteRecordings : Bool
  supportsClips : Bool
  supportsRecordings : Bool
  supportsSnapshots : Bool
  supportsTimeline : Bool
deriving DecidableEq

/-- A camera configuration. `cameraId` is the camera ID that
`getCameraID` derives from a resolved config (the derivation itself
lives in `src/utils/camera.ts`, not under src/). -/
structure CameraConfig where
  oid : Nat
  cameraId : Option String
  triggersMotion : Bool
  triggersOccupancy : Bool
deriving DecidableEq

/-- Modelled from the spec: `getCameraID` (in `src/utils/camera.ts`, not
under src/) "derives" the camera ID of a resolved config; the derived ID is
carried as the config's `cameraId` field. -/
def getCameraID (c : CameraConfig) : Option String :=
  c.cameraId

/-- A camera engine: one instance per backend type (`eid` is its type tag
and identity). The per-backend behavior is outside the analysed sources, so
each operation the orchestrator dispatches to is an arbitrary function
field. `getEvents`, `getRecordings` and `getRecordingSegments` return the
engine's own query-to-result mapping (`none` models a null return). -/
structure Engine where
  eid : Nat
  getEvents : DataQuery → Option (List (DataQuery × QueryResults))
  getRecordings : DataQuery → Option (List (DataQuery × QueryResults))
  getRecordingSegments : DataQuery → Option (List (DataQuery × QueryResults))
  generateMediaFromEvents : DataQuery → QueryResults → Option (List ViewMedia)
  generateMediaFromRecordings : DataQuery → QueryResults → Option (List ViewMedia)
  getQueryResultMaxAge : DataQuery → Option Nat
  getCameraCapabilities : CameraConfig → CameraManagerCapabilities
  getMediaSeekTime : ViewMedia → Nat → Option Int

/-- One camera held by the Store: its ID, resolved config and owning engine. -/
structure StoreCamera where
  cameraID : String
  config : CameraConfig
  engine : Engine

/-- Modelled from the spec: the `CameraManagerStore` (not under src/) "maps
camera ID -> (CameraConfig, Engine)", insertion-ordered, with "camera IDs
unique; every camera maps to exactly one engine". -/
structure CameraManagerStore where
  cameras : List StoreCamera

def CameraManagerStore.empty : CameraManagerStore :=
  ⟨[]⟩

def CameraManagerStore.hasCameraID (s : CameraManagerStore) (cid : String) : Bool :=
  s.cameras.any (fun c => c.cameraID = cid)

def CameraManagerStore.addCamera (s : CameraManagerStore) (cid : String)
    (config : CameraConfig) (engine : Engine) : CameraManagerStore :=
  ⟨s.cameras ++ [⟨cid, config, engine⟩]⟩

def CameraManagerStore.getCameraCount (s : CameraManagerStore) : Nat :=
  s.cameras.length

def CameraManagerStore.getCameraIDs (s : CameraManagerStore) : List String :=
  s.cameras.map (fun c => c.cameraID)

def CameraManagerStore.getCameraConfig (s : CameraManagerStore) (cid : String) :
    Option CameraConfig :=
  (s.cameras.find? (fun c => c.cameraID = cid)).map (fun c => c.config)

def CameraManagerStore.getEngineForCameraID (s : CameraManagerStore) (cid : String) :
    Option Engine :=
  (s.cameras.find? (fun c => c.cameraID = cid)).map (fun c => c.engine)

/-- Modelled from the spec: media resolve "via media's camera reference". -/
def CameraManagerStore.getCameraConfigForMedia (s : CameraManagerStore) (m : ViewMedia) :
    Option CameraConfig :=
  s.getCameraConfig m.cameraID

def CameraManagerStore.getEngineForMedia (s : CameraManagerStore) (m : ViewMedia) :
    Option Engine :=
  s.getEngineForCameraID m.cameraID

def CameraManagerStore.getEngineOfType (s : CameraManagerStore) (t : Nat) : Option Engine :=
  (s.cameras.find? (fun c => c.engine.eid = t)).map (fun c => c.engine)

/-- The distinct engine type tags of the store, in insertion order. -/
def CameraManagerStore.engineTypes (s : CameraManagerStore) : List Nat :=
  (s.cameras.map (fun c => c.engine.eid)).eraseDups

/-- Modelled from the spec: `getEnginesForCameraIDs` "groups requested IDs by
owning engine; IDs owned by no engine are silently dropped". Engines appear
in store insertion order; an engine owning none of the requested IDs has no
entry (a Map has no entry for it in the source). -/
def CameraManagerStore.getEnginesForCameraIDs (s : CameraManagerStore)
    (ids : List String) : List (Engine × List String) :=
  s.engineTypes.filterMap (fun t =>
    match s.getEngineOfType t with
    | none => none
    | some e =>
      let owned :=
        (s.cameras.filter (fun c => c.engine.eid = t ∧ c.cameraID ∈ ids)).map
          (fun c => c.cameraID)
      if owned.isEmpty then none else some (e, owned))

/-- The query clone `{ ...query, cameraIDs: engines.get(engine) }` built by
`_handleQuery` for one engine: a fresh object scoped to the engine's owned
subset of the requested camera IDs. -/
def rewriteQueryForEngine (q : DataQuery) (e : Engine) (cs : List String) : DataQuery :=
  { q with oid := OId.engineClone q.oid e.eid, cameraIDs := cs }

/-- Dispatch of `processEngineQuery` on the query-type discriminant
(`QueryClassifier.isEventQuery` and friends). -/
def engineGetData (e : Engine) (q : DataQuery) : Option (List (DataQuery × QueryResults)) :=
  match q.qtype with
  | QueryType.event => e.getEvents q
  | QueryType.recording => e.getRecordings q
  | QueryType.recordingSegments => e.getRecordingSegments q

/-- JavaScript `Map.prototype.set` on an association list: an existing key
keeps its position and gets the new value, a new key is appended. -/
def mapSet (m : List (DataQuery × QueryResults)) (k : DataQuery) (v : QueryResults) :
    List (DataQuery × QueryResults) :=
  if m.any (fun p => p.1 = k) then
    m.map (fun p => if p.1 = k then (k, v) else p)
  else m ++ [(k, v)]

/-- Body of `processEngineQuery` in `_handleQuery`: dispatch the (already rewritten)
query to the engine and merge the returned fragment into the accumulator
(`engineResult?.forEach((value, key) => results.set(key, value))`). -/
def processEngineQuery (acc : List (DataQuery × QueryResults)) (e : Engine)
    (q : DataQuery) : List (DataQuery × QueryResults) :=
  match engineGetData e q with
  | none => acc
  | some frags => frags.foldl (fun acc p => mapSet acc p.1 p.2) acc

/-- Body of `processQuery` in `_handleQuery`: group the query's cameras by owning
engine and dispatch the per-engine clone to each engine. -/
def processQuery (s : CameraManagerStore) (acc : List (DataQuery × QueryResults))
    (q : DataQuery) : List (DataQuery × QueryResults) :=
  (s.getEnginesForCameraIDs q.cameraIDs).foldl
    (fun acc ec => processEngineQuery acc ec.1 (rewriteQueryForEngine q ec.1 ec.2)) acc

/-- The orchestrator `_handleQuery`: fan every query out to its owning engines and merge all
returned fragments into one accumulator (the returned Map, as an
insertion-ordered association list). -/
def handleQuery (s : CameraManagerStore) (queries : List DataQuery) :
    List (DataQuery × QueryResults) :=
  queries.foldl (processQuery s) []

/-- The key space of the `uniqBy` iteratee of `_sortMedia`: a media's
identity string when present, otherwise the media object itself
(represented by its object identity). -/
inductive MediaKey where
  | byId (i : String)
  | byObject (oid : Nat)
deriving DecidableEq

/-- The `uniqBy` iteratee `(media) => media.getID() ?? media` of
`_sortMedia`. -/
def mediaKey (m : ViewMedia) : MediaKey :=
  match m.mediaId with
  | some i => MediaKey.byId i
  | none => MediaKey.byObject m.oid

/-- lodash `uniqBy`: keep the first element for each distinct key, in input
order. `seen` accumulates the keys already kept. -/
def uniqByAux : List ViewMedia → List MediaKey → List ViewMedia
  | [], _ => []
  | m :: rest, seen =>
    if mediaKey m ∈ seen then uniqByAux rest seen
    else m :: uniqByAux rest (mediaKey m :: seen)

/-- The call `uniqBy(mediaArray, (media) => media.getID() ?? media)` of `_sortMedia`. -/
def uniqBy (l : List ViewMedia) : List ViewMedia :=
  uniqByAux l []

/-- lodash ascending comparison on the `getStartTime()` sort keys: a missing
start time (null) sorts after every present one, two missing ones tie. -/
def startLE (a b : Option Nat) : Bool :=
  match a, b with
  | none, none => true
  | none, some _ => false
  | some _, none => true
  | some x, some y => decide (x ≤ y)

/-- The sort order of `_sortMedia` on media. -/
def mediaLE (a b : ViewMedia) : Prop :=
  startLE a.startTime b.startTime = true

instance : DecidableRel mediaLE :=
  fun a b => instDecidableEqBool (startLE a.startTime b.startTime) true

instance : IsTotal ViewMedia mediaLE := by
  constructor
  intro a b
  unfold mediaLE startLE
  rcases a.startTime with _ | x <;> rcases b.startTime with _ | y <;> simp <;> omega

instance : IsTrans ViewMedia mediaLE := by
  constructor
  intro a b c
  unfold mediaLE startLE
  rcases a.startTime with _ | x <;> rcases b.startTime with _ | y <;>
    rcases c.startTime with _ | z <;> simp <;> omega

/-- Core `_sortMedia`: deduplicate by `mediaKey`, then stable-sort ascending by
start time (lodash `orderBy(..., 'asc')` is a stable sort; insertion sort
with a total preorder realizes the same stable result). -/
def sortMedia (l : List ViewMedia) : List ViewMedia :=
  List.insertionSort mediaLE (uniqBy l)

/-- One entry of `_convertQueryResultsToMedia`: resolve the producing engine
from the result's engine type, then translate matched (query, result) pairs
through the engine (Event with Event, Recording with Recording; segment
queries and mismatches yield nothing). -/
def generateMediaForEntry (s : CameraManagerStore) (q : DataQuery) (r : QueryResults) :
    List ViewMedia :=
  match s.getEngineOfType r.engineType with
  | none => []
  | some e =>
    if q.qtype = QueryType.event ∧ r.rtype = QueryType.event then
      (e.generateMediaFromEvents q r).getD []
    else if q.qtype = QueryType.recording ∧ r.rtype = QueryType.recording then
      (e.generateMediaFromRecordings q r).getD []
    else []

/-- Conversion `_convertQueryResultsToMedia`: concatenate the translated media of every
(query, result) entry and `_sortMedia` the result. -/
def convertQueryResultsToMedia (s : CameraManagerStore)
    (results : List (DataQuery × QueryResults)) : List ViewMedia :=
  sortMedia (results.foldl (fun acc p => acc ++ generateMediaForEntry s p.1 p.2) [])

/-- Query execution `executeMediaQueries`: `_handleQuery` then `_convertQueryResultsToMedia`. -/
def executeMediaQueries (s : CameraManagerStore) (queries : List DataQuery) :
    List ViewMedia :=
  convertQueryResultsToMedia s (handleQuery s queries)

/-- The loop body of `getTimeFromResults` in `extendMediaQueries`
(`latest = true` for 'latest', `false` for 'earliest'). -/
def getTimeFromResultsAux (latest : Bool) : List ViewMedia → Option Nat → Option Nat
  | [], out => out
  | m :: rest, out =>
    match m.startTime, out with
    | none, _ => getTimeFromResultsAux latest rest out
    | some st, none => getTimeFromResultsAux latest rest (some st)
    | some st, some o =>
      if (latest = false ∧ st < o) ∨ (latest = true ∧ o < st) then
        getTimeFromResultsAux latest rest (some st)
      else getTimeFromResultsAux latest rest out

/-- Helper `getTimeFromResults` of `extendMediaQueries`: the latest (or earliest)
start time present among the existing results, null when none is present. -/
def getTimeFromResults (results : List ViewMedia) (latest : Bool) : Option Nat :=
  getTimeFromResultsAux latest results none

inductive ExtendDirection where
  | earlier
  | later
deriving DecidableEq

/-- The per-query chunk query built by `extendMediaQueries`: a clone of the
original whose time bound continues from the extreme start time present in
the existing results and whose limit is the chunk size. -/
def mkChunkQuery (dir : ExtendDirection) (results : List ViewMedia) (chunkSize : Nat)
    (q : DataQuery) : DataQuery :=
  let base : DataQuery := { q with oid := OId.chunkClone q.oid }
  let timed :=
    match dir with
    | ExtendDirection.later =>
      match getTimeFromResults results true with
      | some t => { base with start := some t }
      | none => base
    | ExtendDirection.earlier =>
      match getTimeFromResults results false with
      | some t => { base with endBound := some t }
      | none => base
  { timed with limit := some chunkSize }

/-- The per-query re-constituted combined query of `extendMediaQueries`:
`{ ...query, limit: (query.limit ?? 0) + chunkSize }`. -/
def mkExtendedQuery (chunkSize : Nat) (q : DataQuery) : DataQuery :=
  { q with oid := OId.extendedClone q.oid, limit := some (q.limit.getD 0 + chunkSize) }

structure ExtendedMediaQueryResult where
  queries : List DataQuery
  results : List ViewMedia

/-- Pagination `extendMediaQueries`: build the chunk queries and the extended queries,
re-execute the chunk, fail (null) on an empty chunk, otherwise merge the
chunk into the prior results through `_sortMedia`. -/
def extendMediaQueries (s : CameraManagerStore) (queries : List DataQuery)
    (results : List ViewMedia) (dir : ExtendDirection) (chunkSize : Nat) :
    Option ExtendedMediaQueryResult :=
  let newChunkQueries := queries.map (mkChunkQuery dir results chunkSize)
  let extendedQueries := queries.map (mkExtendedQuery chunkSize)
  let newChunkMedia := convertQueryResultsToMedia s (handleQuery s newChunkQueries)
  if newChunkMedia.isEmpty then none
  else some ⟨extendedQueries, sortMedia (results ++ newChunkMedia)⟩

/-- The query clone `{ ...query, cameraIDs: cameraIDs }` built by
`areMediaQueriesResultsFresh` for one engine. -/
def rewriteQueryForFreshness (q : DataQuery) (e : Engine) (cs : List String) : DataQuery :=
  { q with oid := OId.freshnessClone q.oid e.eid, cameraIDs := cs }

/-- The stale test of `areMediaQueriesResultsFresh` for one engine:
a non-null max age with `resultsTimestamp + maxAge < now`. -/
def engineStale (ts now : Nat) (e : Engine) (q : DataQuery) : Bool :=
  match e.getQueryResultMaxAge q with
  | none => false
  | some a => decide (ts + a < now)

/-- Freshness test `areMediaQueriesResultsFresh`: false as soon as one (engine, owned
subset) pair contributing to the queries is stale, true otherwise (the
early-returning loop of the source is the negation of an any-test). -/
def areMediaQueriesResultsFresh (s : CameraManagerStore) (queries : List DataQuery)
    (ts now : Nat) : Bool :=
  !(queries.any (fun q =>
    (s.getEnginesForCameraIDs q.cameraIDs).any (fun ec =>
      engineStale ts now ec.1 (rewriteQueryForFreshness q ec.1 ec.2))))

/-- Seek lookup `getMediaSeekTime`: null unless the media's camera config and engine
resolve, the media carries both start and end times and the target lies
inside them; otherwise the engine's seek-time lookup. -/
def getMediaSeekTime (s : CameraManagerStore) (m : ViewMedia) (target : Nat) :
    Option Int :=
  match s.getCameraConfigForMedia m, s.getEngineForMedia m, m.startTime, m.endTime with
  | some _, some e, some st, some et =>
    if target < st ∨ et < target then none
    else e.getMediaSeekTime m target
  | _, _, _, _ => none

/-- Per-camera `getCameraCapabilities`: null unless the camera's config and engine
resolve, otherwise the engine's per-camera capabilities. -/
def getCameraCapabilities (s : CameraManagerStore) (cameraID : String) :
    Option CameraManagerCapabilities :=
  match s.getCameraConfig cameraID, s.getEngineForCameraID cameraID with
  | some cfg, some e => some (e.getCameraCapabilities cfg)
  | _, _ => none

/-- One disjunct `perCameraCapabilities.some((cap) => cap?.flag)`: a missing (null)
per-camera capability record contributes false. -/
def capFlagOr (l : List (Option CameraManagerCapabilities))
    (f : CameraManagerCapabilities → Bool) : Bool :=
  l.any (fun c => (c.map f).getD false)

/-- Aggregation `getAggregateCameraCapabilities(cameraIDs?)`: each flag is the
disjunction of that flag over the per-camera capabilities of the requested
subset, all store cameras by default. -/
def getAggregateCameraCapabilities (s : CameraManagerStore)
    (cameraIDs : Option (List String)) : CameraManagerCapabilities :=
  let perCam := (cameraIDs.getD s.getCameraIDs).map (getCameraCapabilities s)
  { canFavoriteEvents := capFlagOr perCam (fun c => c.canFavoriteEvents)
    canFavoriteRecordings := capFlagOr perCam (fun c => c.canFavoriteRecordings)
    supportsClips := capFlagOr perCam (fun c => c.supportsClips)
    supportsRecordings := capFlagOr perCam (fun c => c.supportsRecordings)
    supportsSnapshots := capFlagOr perCam (fun c => c.supportsSnapshots)
    supportsTimeline := capFlagOr perCam (fun c => c.supportsTimeline) }

/-- Error kinds of `CameraInitializationError` as raised by
`initializeCameras` and `_initializeCamera`. -/
inductive CameraInitErrorKind where
  | noCameraEngine
  | noCameraId
  | duplicateCameraId
  | noCameras
deriving DecidableEq

/-- A `CameraInitializationError`: its kind and, where applicable, the
offending input camera config it carries for diagnostics. -/
structure CameraInitializationError where
  kind : CameraInitErrorKind
  context : Option CameraConfig
deriving DecidableEq

/-- The result of `_initializeCamera` for one camera: the original input
config (kept for error messages), the engine-initialized config the camera
ID is derived from, and the resolved engine. -/
structure InitializedCamera where
  inputConfig : CameraConfig
  initializedConfig : CameraConfig
  engine : Engine

/-- The `results.forEach` loop of `initializeCameras`: derive each camera ID
in input order and add the camera, stopping with the error that aborts the
loop (the store keeps everything added before the throw, as the mutated
`this._store` does in the source). -/
def runAdditions : CameraManagerStore → List InitializedCamera →
    CameraManagerStore × Option CameraInitializationError
  | s, [] => (s, none)
  | s, r :: rest =>
    match getCameraID r.initializedConfig with
    | none => (s, some ⟨CameraInitErrorKind.noCameraId, some r.inputConfig⟩)
    | some cid =>
      if s.hasCameraID cid then
        (s, some ⟨CameraInitErrorKind.duplicateCameraId, some r.inputConfig⟩)
      else runAdditions (s.addCamera cid r.initializedConfig r.engine) rest

/-- Initialization `initializeCameras`, from the point where the per-camera initializations
have resolved (engine resolution is a collaborator): apply the results in
input order to the initially empty store, then fail if the store ended
empty. -/
def initializeCameras (rs : List InitializedCamera) :
    Except CameraInitializationError CameraManagerStore :=
  match runAdditions CameraManagerStore.empty rs with
  | (_, some e) => Except.error e
  | (s, none) =>
    if s.getCameraCount = 0 then
      Except.error ⟨CameraInitErrorKind.noCameras, none⟩
    else Except.ok s

/-- An engine keys its returned query-to-result mapping by the query object
it received (the engine contract returns "its own query→result mapping" for
the dispatched query; an engine can never reference the caller's original
object, which it is not given). -/
def engineKeysByInputQuery (e : Engine) : Prop :=
  ∀ q : DataQuery, ∀ p ∈ (engineGetData e q).getD [], p.1 = q

/-- All-false capabilities, for concrete engines in examples. -/
def stubCaps : CameraManagerCapabilities :=
  ⟨false, false, false, false, false, false⟩

/-- A concrete engine of type `n` that answers every event query with one
result keyed by its input query, and nothing else. -/
def keyedEngine (n : Nat) : Engine where
  eid := n
  getEvents := fun q => some [(q, ⟨QueryType.event, n, false, []⟩)]
  getRecordings := fun _ => none
  getRecordingSegments := fun _ => none
  generateMediaFromEvents := fun _ _ => none
  generateMediaFromRecordings := fun _ _ => none
  getQueryResultMaxAge := fun _ => none
  getCameraCapabilities := fun _ => stubCaps
  getMediaSeekTime := fun _ _ => none

/-- A concrete camera config with object identity `n` and derived ID `cid`. -/
def mkConfig (n : Nat) (cid : Option String) : CameraConfig :=
  ⟨n, cid, false, false⟩

/-- Concrete store for the `_handleQuery` keying analysis: camera `camA` on
engine type 1, camera `camB` on engine type 2. -/
def c1Store : CameraManagerStore :=
  ⟨[⟨"camA", mkConfig 0 (some "camA"), keyedEngine 1⟩,
    ⟨"camB", mkConfig 1 (some "camB"), keyedEngine 2⟩]⟩

/-- A caller's original event query object spanning both cameras. -/
def c1Query : DataQuery :=
  ⟨OId.orig 0, QueryType.event, ["camA", "camB"], none, none, none⟩

def c1EntryKey : DataQuery :=
  rewriteQueryForEngine c1Query (keyedEngine 1) ["camA"]

def c1EntryVal : QueryResults :=
  ⟨QueryType.event, 1, false, []⟩

def c2m1 : ViewMedia := ⟨1, some "x", some 30, none, "cam"⟩

def c2m2 : ViewMedia := ⟨2, some "x", some 10, none, "cam"⟩

def c2m3 : ViewMedia := ⟨3, none, some 20, none, "cam"⟩

def c3mediaA : ViewMedia := ⟨1, some "a", some 30, none, "cam"⟩

def c3mediaB : ViewMedia := ⟨2, some "b", some 10, none, "cam"⟩

def c3mediaC : ViewMedia := ⟨3, some "c", some 20, none, "cam"⟩

/-- Two initialization results deriving the same camera ID `A`. -/
def c9r1 : InitializedCamera :=
  ⟨mkConfig 0 (some "A"), mkConfig 10 (some "A"), keyedEngine 9⟩

def c9r2 : InitializedCamera :=
  ⟨mkConfig 1 (some "A"), mkConfig 11 (some "A"), keyedEngine 9⟩

/-- The store left behind by the failing initialization of `[c9r1, c9r2]`. -/
def c9FailStore : CameraManagerStore :=
  (runAdditions CameraManagerStore.empty [c9r1, c9r2]).1

theorem startLE_refl (o : Option Nat) : startLE o o = true := by
  rcases o with _ | x <;> simp [startLE]

theorem mediaKey_eq_byId_iff (m : ViewMedia) (x : String) :
    mediaKey m = MediaKey.byId x ↔ m.mediaId = some x := by
  rcases h : m.mediaId with _ | i <;> simp [mediaKey, h]

theorem mediaKey_eq_byObject_iff (m : ViewMedia) (o : Nat) :
    mediaKey m = MediaKey.byObject o ↔ m.mediaId = none ∧ m.oid = o := by
  rcases h : m.mediaId with _ | i <;> simp [mediaKey, h]

theorem uniqByAux_countP_of_seen :
    ∀ (l : List ViewMedia) (seen : List MediaKey) (k : MediaKey), k ∈ seen →
      (uniqByAux l seen).countP (fun m => decide (mediaKey m = k)) = 0
  | [], _, _, _ => rfl
  | m :: rest, seen, k, hk => by
    unfold uniqByAux
    by_cases hm : mediaKey m ∈ seen
    · rw [if_pos hm]
      exact uniqByAux_countP_of_seen rest seen k hk
    · rw [if_neg hm, List.countP_cons]
      have hne : ¬ (mediaKey m = k) := fun h => hm (h ▸ hk)
      simp only [hne, decide_False, if_false, Nat.add_zero]
      exact uniqByAux_countP_of_seen rest (mediaKey m :: seen) k
        (List.mem_cons_of_mem _ hk)

theorem uniqByAux_countP_of_mem :
    ∀ (l : List ViewMedia) (seen : List MediaKey) (k : MediaKey), k ∉ seen →
      (∃ m ∈ l, mediaKey m = k) →
      (uniqByAux l seen).countP (fun m => decide (mediaKey m = k)) = 1
  | [], _, _, _, hex => by simp at hex
  | m :: rest, seen, k, hk, hex => by
    unfold uniqByAux
    by_cases hm : mediaKey m ∈ seen
    · rw [if_pos hm]
      rcases hex with ⟨m0, hm0, hkey⟩
      rcases List.mem_cons.mp hm0 with rfl | hm0rest
      · exact absurd (hkey ▸ hm) hk
      · exact uniqByAux_countP_of_mem rest seen k hk ⟨m0, hm0rest, hkey⟩
    · rw [if_neg hm, List.countP_cons]
      by_cases hkeq : mediaKey m = k
      · simp only [hkeq, decide_True, if_true]
        rw [uniqByAux_countP_of_seen rest (k :: seen) k (List.mem_cons_self _ _)]
      · simp only [hkeq, decide_False, if_false, Nat.add_zero]
        rcases hex with ⟨m0, hm0, hkey⟩
        rcases List.mem_cons.mp hm0 with rfl | hm0rest
        · exact absurd hkey hkeq
        · refine uniqByAux_countP_of_mem rest (mediaKey m :: seen) k ?_
            ⟨m0, hm0rest, hkey⟩
          intro hin
          rcases List.mem_cons.mp hin with h | h
          · exact hkeq h.symm
          · exact hk h

theorem mem_of_mem_uniqByAux :
    ∀ (l : List ViewMedia) (seen : List MediaKey) (m : ViewMedia),
      m ∈ uniqByAux l seen → m ∈ l
  | [], _, _, h => by simp [uniqByAux] at h
  | a :: rest, seen, m, h => by
    unfold uniqByAux at h
    by_cases ha : mediaKey a ∈ seen
    · rw [if_pos ha] at h
      exact List.mem_cons_of_mem _ (mem_of_mem_uniqByAux rest seen m h)
    · rw [if_neg ha] at h
      rcases List.mem_cons.mp h with rfl | h
      · exact List.mem_cons_self _ _
      · exact List.mem_cons_of_mem _ (mem_of_mem_uniqByAux rest _ m h)

theorem mem_uniqByAux_of_nodup :
    ∀ (l : List ViewMedia) (seen : List MediaKey) (m : ViewMedia),
      (l.map ViewMedia.oid).Nodup → m ∈ l → m.mediaId = none →
      MediaKey.byObject m.oid ∉ seen → m ∈ uniqByAux l seen
  | [], _, _, _, hm, _, _ => by simp at hm
  | a :: rest, seen, m, hnd, hm, hnone, hseen => by
    have hkeym : mediaKey m = MediaKey.byObject m.oid := by
      simp [mediaKey, hnone]
    unfold uniqByAux
    rcases List.mem_cons.mp hm with rfl | hmrest
    · rw [if_neg (hkeym ▸ hseen)]
      exact List.mem_cons_self _ _
    · have hnd' : (rest.map ViewMedia.oid).Nodup := by
        simpa using (List.nodup_cons.mp (by simpa using hnd)).2
      by_cases ha : mediaKey a ∈ seen
      · rw [if_pos ha]
        exact mem_uniqByAux_of_nodup rest seen m hnd' hmrest hnone hseen
      · rw [if_neg ha]
        refine List.mem_cons_of_mem _ ?_
        refine mem_uniqByAux_of_nodup rest (mediaKey a :: seen) m hnd' hmrest hnone ?_
        intro hin
        rcases List.mem_cons.mp hin with h | h
        · rcases (mediaKey_eq_byObject_iff a m.oid).mp h.symm with ⟨_, haoid⟩
          have hmem : m.oid ∈ rest.map ViewMedia.oid := List.mem_map_of_mem _ hmrest
          have hnotin : a.oid ∉ rest.map ViewMedia.oid :=
            (List.nodup_cons.mp (by simpa using hnd)).1
          exact hnotin (haoid ▸ hmem)
        · exact hseen h

theorem uniqByAux_countP_le_one (l : List ViewMedia) (seen : List MediaKey)
    (k : MediaKey) :
    (uniqByAux l seen).countP (fun m => decide (mediaKey m = k)) ≤ 1 := by
  by_cases hk : k ∈ seen
  · rw [uniqByAux_countP_of_seen l seen k hk]
    omega
  · by_cases hex : ∃ m ∈ l, mediaKey m = k
    · rw [uniqByAux_countP_of_mem l seen k hk hex]
    · have hz : (uniqByAux l seen).countP (fun m => decide (mediaKey m = k)) = 0 := by
        rw [List.countP_eq_zero]
        intro m hm
        simp only [decide_eq_true_eq]
        exact fun hkey => hex ⟨m, mem_of_mem_uniqByAux l seen m hm, hkey⟩
      omega

theorem sortMedia_countP_id_eq_one (l : List ViewMedia) (x : String)
    (hx : ∃ m ∈ l, m.mediaId = some x) :
    (sortMedia l).countP (fun m => decide (m.mediaId = some x)) = 1 := by
  unfold sortMedia
  rw [(List.perm_insertionSort mediaLE (uniqBy l)).countP_eq]
  have hcongr : (uniqBy l).countP (fun m => decide (m.mediaId = some x)) =
      (uniqBy l).countP (fun m => decide (mediaKey m = MediaKey.byId x)) :=
    List.countP_congr (fun m _ => by simp [mediaKey_eq_byId_iff])
  rw [hcongr]
  refine uniqByAux_countP_of_mem l [] (MediaKey.byId x) (List.not_mem_nil _) ?_
  rcases hx with ⟨m, hm, hid⟩
  exact ⟨m, hm, (mediaKey_eq_byId_iff m x).mpr hid⟩

theorem sortMedia_countP_id_le_one (l : List ViewMedia) (x : String) :
    (sortMedia l).countP (fun m => decide (m.mediaId = some x)) ≤ 1 := by
  unfold sortMedia
  rw [(List.perm_insertionSort mediaLE (uniqBy l)).countP_eq]
  have hcongr : (uniqBy l).countP (fun m => decide (m.mediaId = some x)) =
      (uniqBy l).countP (fun m => decide (mediaKey m = MediaKey.byId x)) :=
    List.countP_congr (fun m _ => by simp [mediaKey_eq_byId_iff])
  rw [hcongr]
  exact uniqByAux_countP_le_one l [] (MediaKey.byId x)

/-- Claim C2: `_sortMedia` (and hence `executeMediaQueries`) deduplicates by
media identity: among distinct media objects, exactly one item with a given
identity `x` survives, and every item lacking an identity is retained. -/
theorem sortMedia_dedup_by_identity (l : List ViewMedia)
    (hoid : (l.map ViewMedia.oid).Nodup) :
    (∀ x : String, (∃ m ∈ l, m.mediaId = some x) →
      (sortMedia l).countP (fun m => decide (m.mediaId = some x)) = 1) ∧
    (∀ m ∈ l, m.mediaId = none → m ∈ sortMedia l) := by
  constructor
  · intro x hx
    exact sortMedia_countP_id_eq_one l x hx
  · intro m hm hnone
    have hmem : m ∈ uniqBy l :=
      mem_uniqByAux_of_nodup l [] m hoid hm hnone (List.not_mem_nil _)
    exact (List.mem_insertionSort mediaLE).mpr hmem

/-- Witness for C2 at a concrete input: two media share identity `x`, a
third has none; one `x` survives and the identity-less item is retained. -/
theorem sortMedia_dedup_by_identity_witness :
    (sortMedia [c2m1, c2m2, c2m3]).countP (fun m => decide (m.mediaId = some "x")) = 1 ∧
    c2m3 ∈ sortMedia [c2m1, c2m2, c2m3] := by
  have h := sortMedia_dedup_by_identity [c2m1, c2m2, c2m3] (by decide)
  exact ⟨h.1 "x" ⟨c2m1, by simp, rfl⟩, h.2 c2m3 (by simp) rfl⟩

theorem filter_orderedInsert_startTime (a : ViewMedia) (l : List ViewMedia)
    (t : Option Nat) :
    (List.orderedInsert mediaLE a l).filter (fun m => decide (m.startTime = t)) =
      if a.startTime = t then
        a :: l.filter (fun m => decide (m.startTime = t))
      else l.filter (fun m => decide (m.startTime = t)) := by
  rw [List.orderedInsert_eq_take_drop, List.filter_append, List.filter_cons]
  by_cases h : a.startTime = t
  · simp only [h, decide_True, if_true]
    have htake : (l.takeWhile fun b => decide ¬ mediaLE a b).filter
        (fun m => decide (m.startTime = t)) = [] := by
      rw [List.filter_eq_nil_iff]
      intro b hb
      have hnle : ¬ mediaLE a b := by simpa using List.mem_takeWhile_imp hb
      simp only [decide_eq_true_eq]
      intro hbt
      exact hnle (by simp [mediaLE, h, hbt, startLE_refl])
    rw [htake]
    have hsplit :
        l.filter (fun m => decide (m.startTime = t)) =
          ((l.takeWhile fun b => decide ¬ mediaLE a b).filter
              (fun m => decide (m.startTime = t))) ++
            ((l.dropWhile fun b => decide ¬ mediaLE a b).filter
              (fun m => decide (m.startTime = t))) := by
      rw [← List.filter_append, List.takeWhile_append_dropWhile]
    rw [hsplit, htake]
    simp
  · simp only [h, decide_False, Bool.false_eq_true, if_false]
    rw [← List.filter_append, List.takeWhile_append_dropWhile]

theorem filter_insertionSort_startTime :
    ∀ (l : List ViewMedia) (t : Option Nat),
      (List.insertionSort mediaLE l).filter (fun m => decide (m.startTime = t)) =
        l.filter (fun m => decide (m.startTime = t))
  | [], _ => rfl
  | a :: l, t => by
    show (List.orderedInsert mediaLE a (List.insertionSort mediaLE l)).filter _ = _
    rw [filter_orderedInsert_startTime, List.filter_cons]
    by_cases h : a.startTime = t <;>
      simp [h, filter_insertionSort_startTime l t]

/-- Claim C3: `_sortMedia` output (hence `executeMediaQueries` and the
merged results of `extendMediaQueries`) is ordered ascending by start time;
items with equal start times keep the relative order they had after
deduplication. At start times [30, 10, 20] the output order is [10, 20, 30]. -/
theorem sortMedia_sorted_stable (l : List ViewMedia) :
    List.Sorted mediaLE (sortMedia l) ∧
    (∀ t : Option Nat,
      (sortMedia l).filter (fun m => decide (m.startTime = t)) =
        (uniqBy l).filter (fun m => decide (m.startTime = t))) ∧
    sortMedia [c3mediaA, c3mediaB, c3mediaC] = [c3mediaB, c3mediaC, c3mediaA] :=
  ⟨List.sorted_insertionSort mediaLE (uniqBy l),
   fun t => filter_insertionSort_startTime (uniqBy l) t,
   by decide⟩

theorem runAdditions_cons_none (s : CameraManagerStore) (r : InitializedCamera)
    (rest : List InitializedCamera) (h : getCameraID r.initializedConfig = none) :
    runAdditions s (r :: rest) =
      (s, some ⟨CameraInitErrorKind.noCameraId, some r.inputConfig⟩) := by
  simp only [runAdditions, h]

theorem runAdditions_cons_dup (s : CameraManagerStore) (r : InitializedCamera)
    (rest : List InitializedCamera) (i : String)
    (h : getCameraID r.initializedConfig = some i) (hh : s.hasCameraID i = true) :
    runAdditions s (r :: rest) =
      (s, some ⟨CameraInitErrorKind.duplicateCameraId, some r.inputConfig⟩) := by
  simp only [runAdditions, h, hh, if_true]

theorem runAdditions_cons_fresh (s : CameraManagerStore) (r : InitializedCamera)
    (rest : List InitializedCamera) (i : String)
    (h : getCameraID r.initializedConfig = some i) (hh : s.hasCameraID i = false) :
    runAdditions s (r :: rest) =
      runAdditions (s.addCamera i r.initializedConfig r.engine) rest := by
  simp only [runAdditions, h, hh, Bool.false_eq_true, if_false]

theorem hasCameraID_iff (s : CameraManagerStore) (cid : String) :
    s.hasCameraID cid = true ↔ cid ∈ s.getCameraIDs := by
  simp [CameraManagerStore.hasCameraID, CameraManagerStore.getCameraIDs,
    List.any_eq_true]

theorem addCamera_getCameraIDs (s : CameraManagerStore) (cid : String)
    (cfg : CameraConfig) (e : Engine) :
    (s.addCamera cid cfg e).getCameraIDs = s.getCameraIDs ++ [cid] := by
  simp [CameraManagerStore.addCamera, CameraManagerStore.getCameraIDs]

theorem addCamera_hasCameraID (s : CameraManagerStore) (cid x : String)
    (cfg : CameraConfig) (e : Engine) :
    (s.addCamera cid cfg e).hasCameraID x =
      (s.hasCameraID x || decide (cid = x)) := by
  simp [CameraManagerStore.addCamera, CameraManagerStore.hasCameraID,
    List.any_append]

theorem runAdditions_duplicate :
    ∀ (rs : List InitializedCamera) (s : CameraManagerStore),
      (∀ r ∈ rs, (getCameraID r.initializedConfig).isSome) →
      s.getCameraIDs.Nodup →
      ¬ (s.getCameraIDs ++
          rs.filterMap (fun r => getCameraID r.initializedConfig)).Nodup →
      ∃ r ∈ rs, (runAdditions s rs).2 =
        some ⟨CameraInitErrorKind.duplicateCameraId, some r.inputConfig⟩
  | [], s, _, hs, hnd => by
    rw [List.filterMap_nil, List.append_nil] at hnd
    exact absurd hs hnd
  | r :: rest, s, hsome, hs, hnd => by
    rcases hid : getCameraID r.initializedConfig with _ | i
    · have hi := hsome r (List.mem_cons_self _ _)
      rw [hid] at hi
      simp at hi
    · by_cases hhas : s.hasCameraID i = true
      · rw [runAdditions_cons_dup s r rest i hid hhas]
        exact ⟨r, List.mem_cons_self _ _, rfl⟩
      · have hhas' : s.hasCameraID i = false := by
          simpa using hhas
        rw [runAdditions_cons_fresh s r rest i hid hhas']
        have hfresh : i ∉ s.getCameraIDs := fun hmem =>
          hhas ((hasCameraID_iff s i).mpr hmem)
        have hnd' : (s.addCamera i r.initializedConfig r.engine).getCameraIDs.Nodup := by
          rw [addCamera_getCameraIDs]
          simp [List.nodup_append, hs, hfresh]
        have hrw : (s.addCamera i r.initializedConfig r.engine).getCameraIDs ++
            rest.filterMap (fun r => getCameraID r.initializedConfig) =
            s.getCameraIDs ++
              (r :: rest).filterMap (fun r => getCameraID r.initializedConfig) := by
          rw [addCamera_getCameraIDs, List.filterMap_cons, hid]
          simp [List.append_assoc]
        have hnd2 : ¬ ((s.addCamera i r.initializedConfig r.engine).getCameraIDs ++
            rest.filterMap (fun r => getCameraID r.initializedConfig)).Nodup := by
          rw [hrw]; exact hnd
        rcases runAdditions_duplicate rest
            (s.addCamera i r.initializedConfig r.engine)
            (fun r' h => hsome r' (List.mem_cons_of_mem _ h)) hnd' hnd2 with
          ⟨r0, hr0, hout⟩
        exact ⟨r0, List.mem_cons_of_mem _ hr0, hout⟩

theorem runAdditions_missing_id :
    ∀ (rs : List InitializedCamera) (s : CameraManagerStore),
      (rs.map (fun r => getCameraID r.initializedConfig)).Nodup →
      (∀ r ∈ rs, ∀ i, getCameraID r.initializedConfig = some i →
        s.hasCameraID i = false) →
      (∃ r ∈ rs, getCameraID r.initializedConfig = none) →
      ∃ r ∈ rs, getCameraID r.initializedConfig = none ∧
        (runAdditions s rs).2 =
          some ⟨CameraInitErrorKind.noCameraId, some r.inputConfig⟩
  | [], _, _, _, hex => by simp at hex
  | r :: rest, s, hnd, hfree, hex => by
    rcases hid : getCameraID r.initializedConfig with _ | i
    · exact ⟨r, List.mem_cons_self _ _, hid, by rw [runAdditions_cons_none s r rest hid]⟩
    · have hhas : s.hasCameraID i = false := hfree r (List.mem_cons_self _ _) i hid
      rw [runAdditions_cons_fresh s r rest i hid hhas]
      have hnd' : (rest.map (fun r => getCameraID r.initializedConfig)).Nodup :=
        (List.nodup_cons.mp hnd).2
      have hnotin : getCameraID r.initializedConfig ∉
          rest.map (fun r => getCameraID r.initializedConfig) :=
        (List.nodup_cons.mp hnd).1
      have hfree' : ∀ r' ∈ rest, ∀ j, getCameraID r'.initializedConfig = some j →
          (s.addCamera i r.initializedConfig r.engine).hasCameraID j = false := by
        intro r' hr' j hj
        rw [addCamera_hasCameraID]
        have h1 : s.hasCameraID j = false := hfree r' (List.mem_cons_of_mem _ hr') j hj
        have h2 : i ≠ j := by
          intro hij
          apply hnotin
          rw [hid, hij, ← hj]
          exact List.mem_map_of_mem _ hr'
        simp [h1, h2]
      have hex' : ∃ r' ∈ rest, getCameraID r'.initializedConfig = none := by
        rcases hex with ⟨r0, hr0, h0⟩
        rcases List.mem_cons.mp hr0 with rfl | hr0rest
        · rw [hid] at h0; simp at h0
        · exact ⟨r0, hr0rest, h0⟩
      rcases runAdditions_missing_id rest
          (s.addCamera i r.initializedConfig r.engine) hnd' hfree' hex' with
        ⟨r0, hr0, h0, hout⟩
      exact ⟨r0, List.mem_cons_of_mem _ hr0, h0, hout⟩

theorem initializeCameras_error_of_snd (rs : List InitializedCamera)
    (e : CameraInitializationError)
    (h : (runAdditions CameraManagerStore.empty rs).2 = some e) :
    initializeCameras rs = Except.error e := by
  unfold initializeCameras
  rcases hrun : runAdditions CameraManagerStore.empty rs with ⟨s', oe⟩
  rw [hrun] at h
  simp only at h
  subst h
  rfl

/-- Claim C4: `initializeCameras` fails with a duplicate-camera error when two
resolved configs derive the same camera ID, with a missing-ID error when a
resolved config yields no camera ID, and with a no-cameras error when the
Store ends empty; the first two failures carry the offending input config. -/
theorem initializeCameras_failure_modes (rs : List InitializedCamera) :
    ((runAdditions CameraManagerStore.empty rs).2 = none →
      (runAdditions CameraManagerStore.empty rs).1.getCameraCount = 0 →
      initializeCameras rs =
        Except.error ⟨CameraInitErrorKind.noCameras, none⟩) ∧
    ((∀ r ∈ rs, (getCameraID r.initializedConfig).isSome) →
      ¬ (rs.filterMap (fun r => getCameraID r.initializedConfig)).Nodup →
      ∃ r ∈ rs, initializeCameras rs =
        Except.error ⟨CameraInitErrorKind.duplicateCameraId, some r.inputConfig⟩) ∧
    ((rs.map (fun r => getCameraID r.initializedConfig)).Nodup →
      (∃ r ∈ rs, getCameraID r.initializedConfig = none) →
      ∃ r ∈ rs, getCameraID r.initializedConfig = none ∧
        initializeCameras rs =
          Except.error ⟨CameraInitErrorKind.noCameraId, some r.inputConfig⟩) ∧
    (rs = [] →
      initializeCameras rs = Except.error ⟨CameraInitErrorKind.noCameras, none⟩) := by
  refine ⟨?_, ?_, ?_, ?_⟩
  · intro hnone hzero
    unfold initializeCameras
    rcases hrun : runAdditions CameraManagerStore.empty rs with ⟨s', oe⟩
    rw [hrun] at hnone hzero
    simp only at hnone hzero
    subst hnone
    simp [hzero]
  · intro hsome hnd
    have hnd0 : ¬ (CameraManagerStore.empty.getCameraIDs ++
        rs.filterMap (fun r => getCameraID r.initializedConfig)).Nodup := by
      simpa [CameraManagerStore.empty, CameraManagerStore.getCameraIDs] using hnd
    rcases runAdditions_duplicate rs CameraManagerStore.empty hsome
        (by simp [CameraManagerStore.empty, CameraManagerStore.getCameraIDs]) hnd0 with
      ⟨r, hr, hout⟩
    exact ⟨r, hr, initializeCameras_error_of_snd rs _ hout⟩
  · intro hnd hex
    rcases runAdditions_missing_id rs CameraManagerStore.empty hnd
        (by intro r hr i hi
            simp [CameraManagerStore.empty, CameraManagerStore.hasCameraID]) hex with
      ⟨r, hr, hnone, hout⟩
    exact ⟨r, hr, hnone, initializeCameras_error_of_snd rs _ hout⟩
  · intro h
    subst h
    rfl

theorem runAdditions_partial :
    ∀ (rs : List InitializedCamera) (s0 s : CameraManagerStore)
      (e : CameraInitializationError), runAdditions s0 rs = (s, some e) →
      ∃ pre r post, rs = pre ++ r :: post ∧
        runAdditions s0 pre = (s, none) ∧
        s.getCameraCount = s0.getCameraCount + pre.length
  | [], s0, s, e, h => by
    simp [runAdditions] at h
  | r :: rest, s0, s, e, h => by
    rcases hid : getCameraID r.initializedConfig with _ | i
    · rw [runAdditions_cons_none s0 r rest hid] at h
      have h1 : s0 = s := congrArg Prod.fst h
      subst h1
      exact ⟨[], r, rest, rfl, rfl, by simp⟩
    · by_cases hhas : s0.hasCameraID i = true
      · rw [runAdditions_cons_dup s0 r rest i hid hhas] at h
        have h1 : s0 = s := congrArg Prod.fst h
        subst h1
        exact ⟨[], r, rest, rfl, rfl, by simp⟩
      · have hhas' : s0.hasCameraID i = false := by simpa using hhas
        rw [runAdditions_cons_fresh s0 r rest i hid hhas'] at h
        rcases runAdditions_partial rest
            (s0.addCamera i r.initializedConfig r.engine) s e h with
          ⟨pre, r0, post, hsplit, hpre, hcount⟩
        refine ⟨r :: pre, r0, post, by rw [hsplit]; rfl, ?_, ?_⟩
        · rw [runAdditions_cons_fresh s0 r pre i hid hhas']
          exact hpre
        · have : (s0.addCamera i r.initializedConfig r.engine).getCameraCount =
              s0.getCameraCount + 1 := by
            simp [CameraManagerStore.addCamera, CameraManagerStore.getCameraCount]
          rw [hcount, this]
          simp [List.length_cons]
          omega

/-- Claim C9: `initializeCameras` is not atomic on a per-config failure: the
store ends holding exactly the cameras of the successfully processed strict
prefix of the input (partial commit, no rollback). -/
theorem initializeCameras_partial_commit (rs : List InitializedCamera)
    (s : CameraManagerStore) (e : CameraInitializationError)
    (h : runAdditions CameraManagerStore.empty rs = (s, some e)) :
    initializeCameras rs = Except.error e ∧
    ∃ pre r post, rs = pre ++ r :: post ∧
      runAdditions CameraManagerStore.empty pre = (s, none) ∧
      s.getCameraCount = pre.length := by
  constructor
  · exact initializeCameras_error_of_snd rs e (by rw [h])
  · rcases runAdditions_partial rs CameraManagerStore.empty s e h with
      ⟨pre, r, post, hsplit, hpre, hcount⟩
    refine ⟨pre, r, post, hsplit, hpre, ?_⟩
    simpa [CameraManagerStore.empty, CameraManagerStore.getCameraCount] using hcount

/-- Witness for C9 at a concrete input: of two configs deriving the same ID
`A`, the first stays committed; the store holds the non-empty strict prefix
`[c9r1]` (one camera) when the duplicate error is thrown. -/
theorem initializeCameras_partial_commit_witness :
    (initializeCameras [c9r1, c9r2] =
      Except.error ⟨CameraInitErrorKind.duplicateCameraId, some c9r2.inputConfig⟩ ∧
      ∃ pre r post, [c9r1, c9r2] = pre ++ r :: post ∧
        runAdditions CameraManagerStore.empty pre = (c9FailStore, none) ∧
        c9FailStore.getCameraCount = pre.length) ∧
    c9FailStore.getCameraCount = 1 :=
  ⟨initializeCameras_partial_commit [c9r1, c9r2] c9FailStore
      ⟨CameraInitErrorKind.duplicateCameraId, some c9r2.inputConfig⟩ rfl,
   rfl⟩

theorem engineStale_false_iff (ts now : Nat) (e : Engine) (q : DataQuery) :
    engineStale ts now e q = false ↔
      ∀ a, e.getQueryResultMaxAge q = some a → now ≤ ts + a := by
  rcases h : e.getQueryResultMaxAge q with _ | a
  · simp [engineStale, h]
  · simp [engineStale, h]

/-- Claim C5: `areMediaQueriesResultsFresh(queries, resultsTimestamp)` is true
exactly when every (engine, owned camera subset) contributing to the queries
reports either an unbounded (null) max cache age or
`resultsTimestamp + maxAge >= now`; a single stale contributor makes the
whole batch stale. -/
theorem areMediaQueriesResultsFresh_iff (s : CameraManagerStore)
    (queries : List DataQuery) (ts now : Nat) :
    areMediaQueriesResultsFresh s queries ts now = true ↔
      ∀ q ∈ queries, ∀ ec ∈ s.getEnginesForCameraIDs q.cameraIDs, ∀ a,
        ec.1.getQueryResultMaxAge (rewriteQueryForFreshness q ec.1 ec.2) = some a →
          now ≤ ts + a := by
  unfold areMediaQueriesResultsFresh
  rw [Bool.not_eq_true']
  rw [List.any_eq_false]
  constructor
  · intro h q hq ec hec a ha
    have h1 := h q hq
    rw [Bool.not_eq_true, List.any_eq_false] at h1
    have h2 := h1 ec hec
    rw [Bool.not_eq_true] at h2
    exact (engineStale_false_iff ts now ec.1 _).mp h2 a ha
  · intro h q hq
    rw [Bool.not_eq_true, List.any_eq_false]
    intro ec hec
    rw [Bool.not_eq_true]
    exact (engineStale_false_iff ts now ec.1 _).mpr (fun a ha => h q hq ec hec a ha)

theorem option_cap_getD_true_iff (o : Option CameraManagerCapabilities)
    (f : CameraManagerCapabilities → Bool) :
    ((o.map f).getD false = true) ↔ ∃ c, o = some c ∧ f c = true := by
  cases o <;> simp

theorem capFlagOr_map_iff (g : String → Option CameraManagerCapabilities)
    (l : List String) (f : CameraManagerCapabilities → Bool) :
    capFlagOr (l.map g) f = true ↔ ∃ i ∈ l, ∃ c, g i = some c ∧ f c = true := by
  unfold capFlagOr
  rw [List.any_eq_true]
  constructor
  · rintro ⟨o, ho, hf⟩
    rcases List.mem_map.mp ho with ⟨i, hi, rfl⟩
    rcases (option_cap_getD_true_iff (g i) f).mp hf with ⟨c, hc, hfc⟩
    exact ⟨i, hi, c, hc, hfc⟩
  · rintro ⟨i, hi, c, hc, hfc⟩
    exact ⟨g i, List.mem_map_of_mem g hi,
      (option_cap_getD_true_iff (g i) f).mpr ⟨c, hc, hfc⟩⟩

/-- Claim C8: each flag of `getAggregateCameraCapabilities(cameraIDs?)` is the
logical OR of that flag over the per-camera capabilities of the requested
subset, defaulting to all store cameras when no subset is given (a camera
whose capabilities do not resolve contributes false). -/
theorem getAggregateCameraCapabilities_or_flags (s : CameraManagerStore)
    (ids : Option (List String)) :
    (((getAggregateCameraCapabilities s ids).canFavoriteEvents = true ↔
        ∃ i ∈ ids.getD s.getCameraIDs, ∃ c, getCameraCapabilities s i = some c ∧
          c.canFavoriteEvents = true) ∧
      ((getAggregateCameraCapabilities s ids).canFavoriteRecordings = true ↔
        ∃ i ∈ ids.getD s.getCameraIDs, ∃ c, getCameraCapabilities s i = some c ∧
          c.canFavoriteRecordings = true) ∧
      ((getAggregateCameraCapabilities s ids).supportsClips = true ↔
        ∃ i ∈ ids.getD s.getCameraIDs, ∃ c, getCameraCapabilities s i = some c ∧
          c.supportsClips = true) ∧
      ((getAggregateCameraCapabilities s ids).supportsRecordings = true ↔
        ∃ i ∈ ids.getD s.getCameraIDs, ∃ c, getCameraCapabilities s i = some c ∧
          c.supportsRecordings = true) ∧
      ((getAggregateCameraCapabilities s ids).supportsSnapshots = true ↔
        ∃ i ∈ ids.getD s.getCameraIDs, ∃ c, getCameraCapabilities s i = some c ∧
          c.supportsSnapshots = true) ∧
      ((getAggregateCameraCapabilities s ids).supportsTimeline = true ↔
        ∃ i ∈ ids.getD s.getCameraIDs, ∃ c, getCameraCapabilities s i = some c ∧
          c.supportsTimeline = true)) ∧
    getAggregateCameraCapabilities s none =
      getAggregateCameraCapabilities s (some s.getCameraIDs) :=
  ⟨⟨capFlagOr_map_iff (getCameraCapabilities s) (ids.getD s.getCameraIDs) _,
    capFlagOr_map_iff (getCameraCapabilities s) (ids.getD s.getCameraIDs) _,
    capFlagOr_map_iff (getCameraCapabilities s) (ids.getD s.getCameraIDs) _,
    capFlagOr_map_iff (getCameraCapabilities s) (ids.getD s.getCameraIDs) _,
    capFlagOr_map_iff (getCameraCapabilities s) (ids.getD s.getCameraIDs) _,
    capFlagOr_map_iff (getCameraCapabilities s) (ids.getD s.getCameraIDs) _⟩,
   rfl⟩

/-- Claim C10: `getMediaSeekTime` returns null whenever the media's camera
config or engine cannot be resolved, the media lacks a start or an end time,
or the target is strictly outside the media's time window; when every
precondition holds the engine's seek-time lookup is returned. -/
theorem getMediaSeekTime_guards (s : CameraManagerStore) (m : ViewMedia)
    (target : Nat) :
    ((s.getCameraConfigForMedia m = none ∨ s.getEngineForMedia m = none ∨
        m.startTime = none ∨ m.endTime = none ∨
        (∃ st, m.startTime = some st ∧ target < st) ∨
        (∃ et, m.endTime = some et ∧ et < target)) →
      getMediaSeekTime s m target = none) ∧
    (∀ cfg e st et, s.getCameraConfigForMedia m = some cfg →
      s.getEngineForMedia m = some e → m.startTime = some st →
      m.endTime = some et → st ≤ target → target ≤ et →
      getMediaSeekTime s m target = e.getMediaSeekTime m target) := by
  constructor
  · intro h
    unfold getMediaSeekTime
    rcases hc : s.getCameraConfigForMedia m with _ | cfg
    · rfl
    rcases he : s.getEngineForMedia m with _ | e
    · rfl
    rcases hst : m.startTime with _ | st
    · rfl
    rcases het : m.endTime with _ | et
    · rfl
    rcases h with h | h | h | h | ⟨st', hst', hlt⟩ | ⟨et', het', hgt⟩
    · rw [hc] at h; exact absurd h (by simp)
    · rw [he] at h; exact absurd h (by simp)
    · rw [hst] at h; exact absurd h (by simp)
    · rw [het] at h; exact absurd h (by simp)
    · rw [hst] at hst'
      injection hst' with hst'
      subst hst'
      show (if target < st ∨ et < target then (none : Option Int)
        else e.getMediaSeekTime m target) = none
      rw [if_pos (Or.inl hlt)]
    · rw [het] at het'
      injection het' with het'
      subst het'
      show (if target < st ∨ et < target then (none : Option Int)
        else e.getMediaSeekTime m target) = none
      rw [if_pos (Or.inr hgt)]
  · intro cfg e st et hc he hst het h1 h2
    unfold getMediaSeekTime
    rw [hc, he, hst, het]
    show (if target < st ∨ et < target then (none : Option Int)
      else e.getMediaSeekTime m target) = e.getMediaSeekTime m target
    rw [if_neg (by omega)]

/-- Claim C7: `extendMediaQueries` returns null exactly when re-executing the
rewritten chunk queries yields zero media; the prior results are untouched
(the embedding is pure and the source builds the merged list with `concat`,
never mutating the caller's array). -/
theorem extendMediaQueries_none_iff (s : CameraManagerStore)
    (queries : List DataQuery) (results : List ViewMedia)
    (dir : ExtendDirection) (chunkSize : Nat) :
    extendMediaQueries s queries results dir chunkSize = none ↔
      convertQueryResultsToMedia s
        (handleQuery s (queries.map (mkChunkQuery dir results chunkSize))) = [] := by
  unfold extendMediaQueries
  rcases h : convertQueryResultsToMedia s
      (handleQuery s (queries.map (mkChunkQuery dir results chunkSize))) with _ | ⟨a, l⟩
  · simp
    exact h
  · simp
    rw [h]
    simp

theorem getTimeFromResultsAux_mem (latest : Bool) :
    ∀ (l : List ViewMedia) (acc : Option Nat) (t : Nat),
      getTimeFromResultsAux latest l acc = some t →
      acc = some t ∨ ∃ m ∈ l, m.startTime = some t
  | [], _, _, h => Or.inl h
  | m :: rest, acc, t, h => by
    have step : ∀ (acc' : Option Nat), getTimeFromResultsAux latest rest acc' = some t →
        (acc' = some t ∨ ∃ m0 ∈ rest, m0.startTime = some t) →
        acc' = some t ∨ ∃ m0 ∈ m :: rest, m0.startTime = some t := by
      intro acc' _ hd
      rcases hd with hd | ⟨m0, hm0, h0⟩
      · exact Or.inl hd
      · exact Or.inr ⟨m0, List.mem_cons_of_mem _ hm0, h0⟩
    rcases hst : m.startTime with _ | st
    · rw [show getTimeFromResultsAux latest (m :: rest) acc =
          getTimeFromResultsAux latest rest acc by
        simp only [getTimeFromResultsAux, hst]] at h
      rcases getTimeFromResultsAux_mem latest rest acc t h with h' | ⟨m0, hm0, h0⟩
      · exact Or.inl h'
      · exact Or.inr ⟨m0, List.mem_cons_of_mem _ hm0, h0⟩
    · rcases acc with _ | o
      · rw [show getTimeFromResultsAux latest (m :: rest) none =
            getTimeFromResultsAux latest rest (some st) by
          simp only [getTimeFromResultsAux, hst]] at h
        rcases getTimeFromResultsAux_mem latest rest (some st) t h with h' | ⟨m0, hm0, h0⟩
        · injection h' with h'
          exact Or.inr ⟨m, List.mem_cons_self _ _, by rw [hst, h']⟩
        · exact Or.inr ⟨m0, List.mem_cons_of_mem _ hm0, h0⟩
      · by_cases hcond : (latest = false ∧ st < o) ∨ (latest = true ∧ o < st)
        · rw [show getTimeFromResultsAux latest (m :: rest) (some o) =
              getTimeFromResultsAux latest rest (some st) by
            simp only [getTimeFromResultsAux, hst, if_pos hcond]] at h
          rcases getTimeFromResultsAux_mem latest rest (some st) t h with h' | ⟨m0, hm0, h0⟩
          · injection h' with h'
            exact Or.inr ⟨m, List.mem_cons_self _ _, by rw [hst, h']⟩
          · exact Or.inr ⟨m0, List.mem_cons_of_mem _ hm0, h0⟩
        · rw [show getTimeFromResultsAux latest (m :: rest) (some o) =
              getTimeFromResultsAux latest rest (some o) by
            simp only [getTimeFromResultsAux, hst, if_neg hcond]] at h
          rcases getTimeFromResultsAux_mem latest rest (some o) t h with h' | ⟨m0, hm0, h0⟩
          · exact Or.inl h'
          · exact Or.inr ⟨m0, List.mem_cons_of_mem _ hm0, h0⟩

theorem getTimeFromResultsAux_latest_bound :
    ∀ (l : List ViewMedia) (acc : Option Nat) (t : Nat),
      getTimeFromResultsAux true l acc = some t →
      (∀ m ∈ l, ∀ u, m.startTime = some u → u ≤ t) ∧
      (∀ o, acc = some o → o ≤ t)
  | [], acc, t, h => by
    constructor
    · intro m hm
      simp at hm
    · intro o ho
      rw [ho] at h
      injection h with h
      omega
  | m :: rest, acc, t, h => by
    rcases hst : m.startTime with _ | st
    · rw [show getTimeFromResultsAux true (m :: rest) acc =
          getTimeFromResultsAux true rest acc by
        simp only [getTimeFromResultsAux, hst]] at h
      rcases getTimeFromResultsAux_latest_bound rest acc t h with ⟨hrest, hacc⟩
      refine ⟨?_, hacc⟩
      intro m0 hm0 u hu
      rcases List.mem_cons.mp hm0 with rfl | hm0r
      · rw [hst] at hu
        exact absurd hu (by simp)
      · exact hrest m0 hm0r u hu
    · rcases acc with _ | o
      · rw [show getTimeFromResultsAux true (m :: rest) none =
            getTimeFromResultsAux true rest (some st) by
          simp only [getTimeFromResultsAux, hst]] at h
        rcases getTimeFromResultsAux_latest_bound rest (some st) t h with ⟨hrest, hacc⟩
        have hst_le : st ≤ t := hacc st rfl
        constructor
        · intro m0 hm0 u hu
          rcases List.mem_cons.mp hm0 with rfl | hm0r
          · rw [hst] at hu
            injection hu with hu
            omega
          · exact hrest m0 hm0r u hu
        · intro o ho
          exact absurd ho (by simp)
      · by_cases hcond : (true = false ∧ st < o) ∨ (true = true ∧ o < st)
        · have ho_lt : o < st := by
            rcases hcond with ⟨h1, _⟩ | ⟨_, h2⟩
            · exact absurd h1 (by simp)
            · exact h2
          rw [show getTimeFromResultsAux true (m :: rest) (some o) =
              getTimeFromResultsAux true rest (some st) by
            simp only [getTimeFromResultsAux, hst]
            rw [if_pos (Or.inr ⟨trivial, ho_lt⟩)]] at h
          rcases getTimeFromResultsAux_latest_bound rest (some st) t h with ⟨hrest, hacc⟩
          have hst_le : st ≤ t := hacc st rfl
          constructor
          · intro m0 hm0 u hu
            rcases List.mem_cons.mp hm0 with rfl | hm0r
            · rw [hst] at hu
              injection hu with hu
              omega
            · exact hrest m0 hm0r u hu
          · intro o' ho'
            injection ho' with ho'
            omega
        · have hst_le_o : st ≤ o := by
            rcases Nat.lt_or_ge o st with hlt | hge
            · exact absurd (Or.inr ⟨rfl, hlt⟩) hcond
            · omega
          rw [show getTimeFromResultsAux true (m :: rest) (some o) =
              getTimeFromResultsAux true rest (some o) by
            simp only [getTimeFromResultsAux, hst]
            rw [if_neg (by
              rintro (⟨h1, _⟩ | ⟨_, h2⟩)
              · exact absurd h1 (by simp)
              · omega)]] at h
          rcases getTimeFromResultsAux_latest_bound rest (some o) t h with ⟨hrest, hacc⟩
          have ho_le : o ≤ t := hacc o rfl
          constructor
          · intro m0 hm0 u hu
            rcases List.mem_cons.mp hm0 with rfl | hm0r
            · rw [hst] at hu
              injection hu with hu
              omega
            · exact hrest m0 hm0r u hu
          · intro o' ho'
            injection ho' with ho'
            omega

theorem getTimeFromResultsAux_earliest_bound :
    ∀ (l : List ViewMedia) (acc : Option Nat) (t : Nat),
      getTimeFromResultsAux false l acc = some t →
      (∀ m ∈ l, ∀ u, m.startTime = some u → t ≤ u) ∧
      (∀ o, acc = some o → t ≤ o)
  | [], acc, t, h => by
    constructor
    · intro m hm
      simp at hm
    · intro o ho
      rw [ho] at h
      injection h with h
      omega
  | m :: rest, acc, t, h => by
    rcases hst : m.startTime with _ | st
    · rw [show getTimeFromResultsAux false (m :: rest) acc =
          getTimeFromResultsAux false rest acc by
        simp only [getTimeFromResultsAux, hst]] at h
      rcases getTimeFromResultsAux_earliest_bound rest acc t h with ⟨hrest, hacc⟩
      refine ⟨?_, hacc⟩
      intro m0 hm0 u hu
      rcases List.mem_cons.mp hm0 with rfl | hm0r
      · rw [hst] at hu
        exact absurd hu (by simp)
      · exact hrest m0 hm0r u hu
    · rcases acc with _ | o
      · rw [show getTimeFromResultsAux false (m :: rest) none =
            getTimeFromResultsAux false rest (some st) by
          simp only [getTimeFromResultsAux, hst]] at h
        rcases getTimeFromResultsAux_earliest_bound rest (some st) t h with ⟨hrest, hacc⟩
        have hle : t ≤ st := hacc st rfl
        constructor
        · intro m0 hm0 u hu
          rcases List.mem_cons.mp hm0 with rfl | hm0r
          · rw [hst] at hu
            injection hu with hu
            omega
          · exact hrest m0 hm0r u hu
        · intro o ho
          exact absurd ho (by simp)
      · by_cases hcond : (false = false ∧ st < o) ∨ (false = true ∧ o < st)
        · have ho_lt : st < o := by
            rcases hcond with ⟨_, h1⟩ | ⟨h2, _⟩
            · exact h1
            · exact absurd h2 (by simp)
          rw [show getTimeFromResultsAux false (m :: rest) (some o) =
              getTimeFromResultsAux false rest (some st) by
            simp only [getTimeFromResultsAux, hst]
            rw [if_pos (Or.inl ⟨trivial, ho_lt⟩)]] at h
          rcases getTimeFromResultsAux_earliest_bound rest (some st) t h with ⟨hrest, hacc⟩
          have hle : t ≤ st := hacc st rfl
          constructor
          · intro m0 hm0 u hu
            rcases List.mem_cons.mp hm0 with rfl | hm0r
            · rw [hst] at hu
              injection hu with hu
              omega
            · exact hrest m0 hm0r u hu
          · intro o' ho'
            injection ho' with ho'
            omega
        · have ho_le : o ≤ st := by
            rcases Nat.lt_or_ge st o with hlt | hge
            · exact absurd (Or.inl ⟨rfl, hlt⟩) hcond
            · omega
          rw [show getTimeFromResultsAux false (m :: rest) (some o) =
              getTimeFromResultsAux false rest (some o) by
            simp only [getTimeFromResultsAux, hst]
            rw [if_neg (by
              rintro (⟨_, h1⟩ | ⟨h2, _⟩)
              · omega
              · exact absurd h2 (by simp))]] at h
          rcases getTimeFromResultsAux_earliest_bound rest (some o) t h with ⟨hrest, hacc⟩
          have hole : t ≤ o := hacc o rfl
          constructor
          · intro m0 hm0 u hu
            rcases List.mem_cons.mp hm0 with rfl | hm0r
            · rw [hst] at hu
              injection hu with hu
              omega
            · exact hrest m0 hm0r u hu
          · intro o' ho'
            injection ho' with ho'
            omega

theorem getTimeFromResultsAux_isSome (latest : Bool) :
    ∀ (l : List ViewMedia) (acc : Option Nat),
      (acc.isSome = true ∨ ∃ m ∈ l, (m.startTime).isSome = true) →
      (getTimeFromResultsAux latest l acc).isSome = true
  | [], acc, h => by
    rcases h with h | hex
    · simpa [getTimeFromResultsAux] using h
    · simp at hex
  | m :: rest, acc, h => by
    rcases hst : m.startTime with _ | st
    · rw [show getTimeFromResultsAux latest (m :: rest) acc =
          getTimeFromResultsAux latest rest acc by
        simp only [getTimeFromResultsAux, hst]]
      apply getTimeFromResultsAux_isSome latest rest acc
      rcases h with h | ⟨m0, hm0, h0⟩
      · exact Or.inl h
      · rcases List.mem_cons.mp hm0 with rfl | hm0r
        · rw [hst] at h0
          simp at h0
        · exact Or.inr ⟨m0, hm0r, h0⟩
    · rcases acc with _ | o
      · rw [show getTimeFromResultsAux latest (m :: rest) none =
            getTimeFromResultsAux latest rest (some st) by
          simp only [getTimeFromResultsAux, hst]]
        exact getTimeFromResultsAux_isSome latest rest (some st) (Or.inl (by simp))
      · by_cases hcond : (latest = false ∧ st < o) ∨ (latest = true ∧ o < st)
        · rw [show getTimeFromResultsAux latest (m :: rest) (some o) =
              getTimeFromResultsAux latest rest (some st) by
            simp only [getTimeFromResultsAux, hst, if_pos hcond]]
          exact getTimeFromResultsAux_isSome latest rest (some st) (Or.inl (by simp))
        · rw [show getTimeFromResultsAux latest (m :: rest) (some o) =
              getTimeFromResultsAux latest rest (some o) by
            simp only [getTimeFromResultsAux, hst, if_neg hcond]]
          exact getTimeFromResultsAux_isSome latest rest (some o) (Or.inl (by simp))

/-- Claim C6: with direction 'later', `extendMediaQueries` rewrites each
chunk query's start bound to the maximum start time present in the existing
results ('earlier' symmetrically rewrites the end bound to the minimum),
returns extended queries whose limit is `(limit ?? 0) + chunkSize`,
re-executes the rewritten chunk queries, and merges the chunk into the prior
results without duplicating previously present identities. -/
theorem extendMediaQueries_spec (s : CameraManagerStore) (queries : List DataQuery)
    (results : List ViewMedia) (chunkSize : Nat) :
    ((∃ m ∈ results, (m.startTime).isSome = true) →
      (getTimeFromResults results true).isSome = true ∧
      (getTimeFromResults results false).isSome = true) ∧
    (∀ t, getTimeFromResults results true = some t →
      (∃ m ∈ results, m.startTime = some t) ∧
      (∀ m ∈ results, ∀ u, m.startTime = some u → u ≤ t) ∧
      (∀ q, (mkChunkQuery ExtendDirection.later results chunkSize q).start = some t)) ∧
    (∀ t, getTimeFromResults results false = some t →
      (∃ m ∈ results, m.startTime = some t) ∧
      (∀ m ∈ results, ∀ u, m.startTime = some u → t ≤ u) ∧
      (∀ q, (mkChunkQuery ExtendDirection.earlier results chunkSize q).endBound = some t)) ∧
    (∀ q, (mkExtendedQuery chunkSize q).limit = some (q.limit.getD 0 + chunkSize)) ∧
    (∀ dir out, extendMediaQueries s queries results dir chunkSize = some out →
      out.queries = queries.map (mkExtendedQuery chunkSize) ∧
      out.results = sortMedia (results ++ convertQueryResultsToMedia s
        (handleQuery s (queries.map (mkChunkQuery dir results chunkSize)))) ∧
      (∀ x : String, out.results.countP (fun m => decide (m.mediaId = some x)) ≤ 1) ∧
      (∀ m ∈ results, ∀ x : String, m.mediaId = some x →
        ∃ m2 ∈ out.results, m2.mediaId = some x)) := by
  refine ⟨?_, ?_, ?_, ?_, ?_⟩
  · intro hex
    exact ⟨getTimeFromResultsAux_isSome true results none (Or.inr hex),
           getTimeFromResultsAux_isSome false results none (Or.inr hex)⟩
  · intro t ht
    refine ⟨?_, ?_, ?_⟩
    · rcases getTimeFromResultsAux_mem true results none t ht with h | h
      · exact absurd h (by simp)
      · exact h
    · exact (getTimeFromResultsAux_latest_bound results none t ht).1
    · intro q
      simp [mkChunkQuery, getTimeFromResults] at *
      simp [ht]
  · intro t ht
    refine ⟨?_, ?_, ?_⟩
    · rcases getTimeFromResultsAux_mem false results none t ht with h | h
      · exact absurd h (by simp)
      · exact h
    · exact (getTimeFromResultsAux_earliest_bound results none t ht).1
    · intro q
      simp [mkChunkQuery, getTimeFromResults] at *
      simp [ht]
  · intro q
    rfl
  · intro dir out hout
    simp only [extendMediaQueries] at hout
    by_cases hemp : (convertQueryResultsToMedia s
        (handleQuery s (queries.map (mkChunkQuery dir results chunkSize)))).isEmpty
    · rw [if_pos hemp] at hout
      exact absurd hout (by simp)
    · rw [if_neg hemp] at hout
      injection hout with hout
      refine ⟨by rw [← hout], by rw [← hout], ?_, ?_⟩
      · intro x
        rw [← hout]
        exact sortMedia_countP_id_le_one _ x
      · intro m hm x hx
        rw [← hout]
        have hone := sortMedia_countP_id_eq_one
          (results ++ convertQueryResultsToMedia s
            (handleQuery s (queries.map (mkChunkQuery dir results chunkSize)))) x
          ⟨m, List.mem_append_left _ hm, hx⟩
        have hpos : 0 < (sortMedia (results ++ convertQueryResultsToMedia s
            (handleQuery s (queries.map (mkChunkQuery dir results chunkSize))))).countP
            (fun m => decide (m.mediaId = some x)) := by
          omega
        rcases List.countP_pos_iff.mp hpos with ⟨m2, hm2, hp⟩
        exact ⟨m2, hm2, by simpa using hp⟩

theorem engineClone_ne : ∀ (o : OId) (k : Nat), OId.engineClone o k ≠ o
  | OId.orig _, _ => by simp
  | OId.engineClone b j, k => by
    intro h
    have h1 : OId.engineClone b j = b := by
      injection h
    exact engineClone_ne b j h1
  | OId.freshnessClone _ _, _ => by simp
  | OId.chunkClone _, _ => by simp
  | OId.extendedClone _, _ => by simp

theorem mem_mapSet (m : List (DataQuery × QueryResults)) (k : DataQuery)
    (v : QueryResults) (p : DataQuery × QueryResults) (h : p ∈ mapSet m k v) :
    p ∈ m ∨ p.1 = k := by
  unfold mapSet at h
  by_cases hany : m.any (fun p => decide (p.1 = k)) = true
  · rw [if_pos hany] at h
    rcases List.mem_map.mp h with ⟨p0, hp0, hmap⟩
    by_cases hk : p0.1 = k
    · rw [if_pos hk] at hmap
      right
      rw [← hmap]
    · rw [if_neg hk] at hmap
      left
      rw [← hmap]
      exact hp0
  · rw [if_neg hany] at h
    rcases List.mem_append.mp h with h | h
    · exact Or.inl h
    · right
      rcases List.mem_singleton.mp h with rfl
      rfl

theorem mem_foldl_mapSet :
    ∀ (frags : List (DataQuery × QueryResults))
      (acc : List (DataQuery × QueryResults)) (p : DataQuery × QueryResults),
      p ∈ frags.foldl (fun acc pr => mapSet acc pr.1 pr.2) acc →
      p ∈ acc ∨ ∃ pr ∈ frags, p.1 = pr.1
  | [], _, _, h => Or.inl h
  | f :: frags, acc, p, h => by
    rcases mem_foldl_mapSet frags (mapSet acc f.1 f.2) p h with h' | ⟨pr, hpr, hk⟩
    · rcases mem_mapSet acc f.1 f.2 p h' with h'' | hk
      · exact Or.inl h''
      · exact Or.inr ⟨f, List.mem_cons_self _ _, hk⟩
    · exact Or.inr ⟨pr, List.mem_cons_of_mem _ hpr, hk⟩

theorem mem_processEngineQuery (acc : List (DataQuery × QueryResults)) (e : Engine)
    (q : DataQuery) (p : DataQuery × QueryResults)
    (he : engineKeysByInputQuery e) (h : p ∈ processEngineQuery acc e q) :
    p ∈ acc ∨ p.1 = q := by
  unfold processEngineQuery at h
  rcases hd : engineGetData e q with _ | frags
  · rw [hd] at h
    exact Or.inl h
  · rw [hd] at h
    rcases mem_foldl_mapSet frags acc p h with h' | ⟨pr, hpr, hk⟩
    · exact Or.inl h'
    · right
      have hpr' : pr ∈ (engineGetData e q).getD [] := by
        rw [hd]
        exact hpr
      rw [hk, he q pr hpr']

theorem engine_mem_getEnginesForCameraIDs (s : CameraManagerStore)
    (ids : List String) (ec : Engine × List String)
    (h : ec ∈ s.getEnginesForCameraIDs ids) :
    ∃ c ∈ s.cameras, c.engine = ec.1 := by
  unfold CameraManagerStore.getEnginesForCameraIDs at h
  rcases List.mem_filterMap.mp h with ⟨t, _, hsome⟩
  rcases he : s.getEngineOfType t with _ | e
  · rw [he] at hsome
    simp at hsome
  · simp only [he] at hsome
    by_cases howned : ((s.cameras.filter
        (fun c => decide (c.engine.eid = t ∧ c.cameraID ∈ ids))).map
          (fun c => c.cameraID)).isEmpty = true
    · rw [if_pos howned] at hsome
      simp at hsome
    · rw [if_neg howned] at hsome
      injection hsome with hsome
      unfold CameraManagerStore.getEngineOfType at he
      rcases hfind : s.cameras.find? (fun c => decide (c.engine.eid = t)) with _ | c
      · rw [hfind] at he
        simp at he
      · rw [hfind] at he
        simp only [Option.map_some'] at he
        injection he with he
        refine ⟨c, List.mem_of_find?_eq_some hfind, ?_⟩
        rw [he, ← hsome]

theorem mem_foldl_processEngineQuery (q : DataQuery) :
    ∀ (ecs : List (Engine × List String))
      (acc : List (DataQuery × QueryResults)) (p : DataQuery × QueryResults),
      (∀ ec ∈ ecs, engineKeysByInputQuery ec.1) →
      p ∈ ecs.foldl
        (fun acc ec => processEngineQuery acc ec.1 (rewriteQueryForEngine q ec.1 ec.2))
        acc →
      p ∈ acc ∨ ∃ ec ∈ ecs, p.1 = rewriteQueryForEngine q ec.1 ec.2
  | [], _, _, _, h => Or.inl h
  | ec :: ecs, acc, p, hk, h => by
    rcases mem_foldl_processEngineQuery q ecs
        (processEngineQuery acc ec.1 (rewriteQueryForEngine q ec.1 ec.2)) p
        (fun ec' h' => hk ec' (List.mem_cons_of_mem _ h')) h with h' | ⟨ec0, hec0, hkey⟩
    · rcases mem_processEngineQuery acc ec.1 (rewriteQueryForEngine q ec.1 ec.2) p
          (hk ec (List.mem_cons_self _ _)) h' with h'' | hkey
      · exact Or.inl h''
      · exact Or.inr ⟨ec, List.mem_cons_self _ _, hkey⟩
    · exact Or.inr ⟨ec0, List.mem_cons_of_mem _ hec0, hkey⟩

theorem mem_processQuery (s : CameraManagerStore)
    (acc : List (DataQuery × QueryResults)) (q : DataQuery)
    (p : DataQuery × QueryResults)
    (hk : ∀ c ∈ s.cameras, engineKeysByInputQuery c.engine)
    (h : p ∈ processQuery s acc q) :
    p ∈ acc ∨ ∃ ec ∈ s.getEnginesForCameraIDs q.cameraIDs,
      p.1 = rewriteQueryForEngine q ec.1 ec.2 := by
  unfold processQuery at h
  refine mem_foldl_processEngineQuery q (s.getEnginesForCameraIDs q.cameraIDs) acc p
    ?_ h
  intro ec hec
  rcases engine_mem_getEnginesForCameraIDs s q.cameraIDs ec hec with ⟨c, hc, hce⟩
  rw [← hce]
  exact hk c hc

theorem mem_foldl_processQuery (s : CameraManagerStore)
    (hk : ∀ c ∈ s.cameras, engineKeysByInputQuery c.engine) :
    ∀ (qs : List DataQuery) (acc : List (DataQuery × QueryResults))
      (p : DataQuery × QueryResults),
      p ∈ qs.foldl (processQuery s) acc →
      p ∈ acc ∨ ∃ q ∈ qs, ∃ ec ∈ s.getEnginesForCameraIDs q.cameraIDs,
        p.1 = rewriteQueryForEngine q ec.1 ec.2
  | [], _, _, h => Or.inl h
  | q :: qs, acc, p, h => by
    rcases mem_foldl_processQuery s hk qs (processQuery s acc q) p h with
      h' | ⟨q0, hq0, ec, hec, hkey⟩
    · rcases mem_processQuery s acc q p hk h' with h'' | ⟨ec, hec, hkey⟩
      · exact Or.inl h''
      · exact Or.inr ⟨q, List.mem_cons_self _ _, ec, hec, hkey⟩
    · exact Or.inr ⟨q0, List.mem_cons_of_mem _ hq0, ec, hec, hkey⟩

/-- Claim C1 (amended): assuming every engine keys its returned mapping by
the query object it received, every key of the map `_handleQuery` returns is
the per-engine rewritten clone `{ ...query, cameraIDs: ownedSubset }` of
some caller query, and never the caller's original query object itself. -/
theorem handleQuery_keys_are_engine_rewrites (s : CameraManagerStore)
    (queries : List DataQuery)
    (hk : ∀ c ∈ s.cameras, engineKeysByInputQuery c.engine) :
    ∀ p ∈ handleQuery s queries,
      ∃ q ∈ queries, ∃ ec ∈ s.getEnginesForCameraIDs q.cameraIDs,
        p.1 = rewriteQueryForEngine q ec.1 ec.2 ∧ p.1 ≠ q := by
  intro p hp
  rcases mem_foldl_processQuery s hk queries [] p hp with h | ⟨q, hq, ec, hec, hkey⟩
  · simp at h
  · refine ⟨q, hq, ec, hec, hkey, ?_⟩
    intro heq
    have hoid : p.1.oid = OId.engineClone q.oid ec.1.eid := by
      rw [hkey]
      rfl
    rw [heq] at hoid
    exact engineClone_ne q.oid ec.1.eid hoid.symm

theorem keyedEngine_keys (n : Nat) : engineKeysByInputQuery (keyedEngine n) := by
  intro q p hp
  unfold engineGetData keyedEngine at hp
  rcases hq : q.qtype
  · rw [hq] at hp
    simp at hp
    rw [hp]
  · rw [hq] at hp
    simp at hp
  · rw [hq] at hp
    simp at hp

/-- Counterexample to C1 as stated: for a concrete two-engine store and one
original query spanning both cameras, `_handleQuery` returns two entries and
none of its keys is the caller's original query object (the keys are the
per-engine clones, whose camera-ID sets even differ from the original's). -/
theorem handleQuery_not_original_keys :
    (handleQuery c1Store [c1Query]).map Prod.fst ≠ [] ∧
    c1Query ∉ (handleQuery c1Store [c1Query]).map Prod.fst ∧
    (handleQuery c1Store [c1Query]).map (fun p => p.1.cameraIDs) =
      [["camA"], ["camB"]] := by
  decide

/-- Witness for the amended C1 at a concrete input: the first returned entry
of `_handleQuery` is keyed by the engine-1 clone of the original query,
which differs from the original. -/
theorem handleQuery_keys_witness :
    ∃ q ∈ [c1Query], ∃ ec ∈ c1Store.getEnginesForCameraIDs q.cameraIDs,
      (c1EntryKey, c1EntryVal).1 = rewriteQueryForEngine q ec.1 ec.2 ∧
      (c1EntryKey, c1EntryVal).1 ≠ q :=
  handleQuery_keys_are_engine_rewrites c1Store [c1Query]
    (by
      intro c hc
      rcases List.mem_cons.mp hc with rfl | hc
      · exact keyedEngine_keys 1
      · rcases List.mem_cons.mp hc with rfl | hc
        · exact keyedEngine_keys 2
        · simp at hc)
    (c1EntryKey, c1EntryVal) (by decide)
